import Mathlib

/-!
Verification development for `prepare_data.py`: a script that loads ECG
records from MATLAB or WFDB files, filters a reference CSV, partitions the
records into 4 cross-validation folds with a seeded shuffled k-fold split,
creates an output directory tree, and writes processed per-record `.npy`
files.  The Python source is shallowly embedded below: pure functions become
Lean functions, the filesystem becomes an explicit read-only structure, the
directory-creating and file-writing effects become explicit lists of created
paths / written (path, content) pairs, and exceptions become `Except`.
-/

namespace PrepareData

/-! ## Configuration constants (CONFIG section of the source) -/

def REF_CSV : String := "C:\\Users\\Notebook\\Downloads\\training2017 (2)\\training2017\\REFERENCE-v3.csv"

def HEA_DIR : String := "C:\\Users\\Notebook\\Downloads\\training2017 (2)\\training2017\\hea_files"

def MAT_DIR : String := "C:\\Users\\Notebook\\Downloads\\training2017 (2)\\training2017\\mat_files"

def FOLDS_DIR : String := "folds"

def N_FOLDS : Nat := 4

def SEED : Nat := 42

/-- The dict `LABEL_MAP = {"N":0, "A":1, "O":2}` as a partial lookup (a
Python dict lookup that can miss is an `Option`). -/
def LABEL_MAP : String → Option Int :=
  fun s => if s = "N" then some 0 else if s = "A" then some 1
           else if s = "O" then some 2 else none

/-- Separator used by `os.path.join`. -/
def pathSep : String := "/"

def pathJoin (a b : String) : String := a ++ pathSep ++ b

/-! ## Numpy arrays

An ndarray is modelled as a dtype tag, a shape, and flat data over an
abstract element type `σ` (the numeric values themselves are irrelevant to
the claims; `astype(np.float32)` maps elements through an abstract cast and
retags the dtype). -/

inductive DType where
  | f32 | f64 | i16 | i32
  deriving DecidableEq, Repr

structure NDArray (σ : Type) where
  dtype : DType
  shape : List Nat
  data : List σ
  deriving DecidableEq, Repr

/-- The `np.squeeze` operation: drop all axes of extent 1; data unchanged. -/
def NDArray.squeeze (a : NDArray σ) : NDArray σ :=
  { a with shape := a.shape.filter (fun d => d ≠ 1) }

/-- The `a.astype(dt)` coercion, with an explicit element-level cast function. -/
def NDArray.astype (cast : σ → σ) (dt : DType) (a : NDArray σ) : NDArray σ :=
  { dtype := dt, shape := a.shape, data := a.data.map cast }

/-- The multi-channel signal returned by `wfdb.rdsamp`: one row per sample,
each row holding the first channel's value and the remaining channels. -/
structure SignalData (σ : Type) where
  dtype : DType
  rows : List (σ × List σ)
  deriving DecidableEq, Repr

/-- Column extraction `signal[:, 0]`: the first channel as a 1-D array. -/
def SignalData.col0 (s : SignalData σ) : NDArray σ :=
  { dtype := s.dtype, shape := [s.rows.length], data := s.rows.map Prod.fst }

/-! ## Filesystem model

`pathExists` models `os.path.exists`; `loadmat` models `scipy.io.loadmat`
(a dict of named variables, queried only at paths that exist); `rdsamp`
models `wfdb.rdsamp` (queried only when the `.dat` file exists). -/

structure FileSystem (σ : Type) where
  pathExists : String → Bool
  loadmat : String → (String → Option (NDArray σ))
  rdsamp : String → SignalData σ

inductive LoadErr where
  | keyError (msg : String)
  | fileNotFoundError (msg : String)
  deriving DecidableEq, Repr

/-- Path `mat_path = os.path.join(MAT_DIR, rec + ".mat")`. -/
def mat_path (rec : String) : String := pathJoin MAT_DIR (rec ++ ".mat")

/-- Path `wfdb_path = os.path.join(HEA_DIR, rec)`. -/
def wfdb_path (rec : String) : String := pathJoin HEA_DIR rec

/-- Path `dat_path = wfdb_path + ".dat"`. -/
def dat_path (rec : String) : String := wfdb_path rec ++ ".dat"

/-- Loader `load_ecg(rec)`: try the MATLAB `.mat` file (field `val`, falling back
to `ecg`), then the WFDB `.dat` file (first channel), else raise
`FileNotFoundError`; the result is coerced via `.astype(np.float32)`. -/
def load_ecg (cast : σ → σ) (fs : FileSystem σ) (rec : String) :
    Except LoadErr (NDArray σ) :=
  if fs.pathExists (mat_path rec) then
    let m := fs.loadmat (mat_path rec)
    match m "val" with
    | some v => .ok ((v.squeeze).astype cast .f32)
    | none =>
      match m "ecg" with
      | some v => .ok ((v.squeeze).astype cast .f32)
      | none => .error (.keyError ("No ECG variable found in " ++ mat_path rec))
  else if fs.pathExists (dat_path rec) then
    .ok (((fs.rdsamp (wfdb_path rec)).col0).astype cast .f32)
  else
    .error (.fileNotFoundError
      ("Neither " ++ mat_path rec ++ " nor " ++ dat_path rec ++
        " found for record " ++ rec))

/-! ## Reference table (step 1 of `main`) -/

structure Row where
  record : String
  label : String
  int_label : Int
  deriving DecidableEq, Repr

/-- Steps `ref = ref[ref.label.isin(LABEL_MAP)].copy()` and
`ref['int_label'] = ref.label.map(LABEL_MAP)` of `main`: keep the CSV rows
whose label is a key of `LABEL_MAP` and attach the mapped integer.
(`isin` on a dict tests key membership, so keeping exactly the rows where
`LABEL_MAP` is defined and attaching its value fuses the two lines.) -/
def refFiltered (csv : List (String × String)) : List Row :=
  csv.filterMap (fun rl =>
    (LABEL_MAP rl.2).map (fun il => { record := rl.1, label := rl.2, int_label := il }))

/-! ## Fold assignment (step 2 of `main`)

`KFold(n_splits=4, shuffle=True, random_state=42).split(recs)` first
shuffles `indices = arange(n)` with an RNG seeded by `random_state`, then
yields `n_splits` consecutive chunks of the shuffled indices as the test
index sets: the first `n % n_splits` chunks have size `n / n_splits + 1`,
the rest size `n / n_splits`.  The numpy shuffle is an external
deterministic function of the seed and `n`; it is a parameter `shuffle`
below, constrained in theorems only by its library contract: its output is
a permutation of `List.range n`. -/

def foldSizes (n k : Nat) : List Nat :=
  (List.range k).map (fun i => n / k + if i < n % k then 1 else 0)

def splitBySizes : List Nat → List Nat → List (List Nat)
  | [], _ => []
  | s :: ss, xs => xs.take s :: splitBySizes ss (xs.drop s)

/-- The test index groups yielded by `kf.split(recs)` on `n` records. -/
def kfoldTestGroups (shuffle : Nat → Nat → List Nat) (seed n k : Nat) :
    List (List Nat) :=
  splitBySizes (foldSizes n k) (shuffle seed n)

/-- A single dict write `fold_map[r] = i`. -/
def updMap (m : String → Option Nat) (r : String) (i : Nat) : String → Option Nat :=
  fun s => if s = r then some i else m s

/-- The flattened sequence of dict writes performed by the loop
`for i, (_, test_idx) in enumerate(kf.split(recs)): for r in recs[test_idx]:
fold_map[r] = i`. -/
def foldMapWrites (recs : List String) (groups : List (List Nat)) :
    List (String × Nat) :=
  groups.enum.flatMap (fun ig =>
    ig.2.filterMap (fun j => (recs[j]?).map (fun r => (r, ig.1))))

/-- The dict `fold_map` after the loop: later writes overwrite earlier bindings. -/
def fold_map (recs : List String) (groups : List (List Nat)) :
    String → Option Nat :=
  (foldMapWrites recs groups).foldl (fun m w => updMap m w.1 w.2) (fun _ => none)

/-- The whole fold assigner of step 2: record identifier → test fold index,
as a function of the shuffle procedure, the seed, and the record ordering. -/
def assignFolds (shuffle : Nat → Nat → List Nat) (seed : Nat) (recs : List String) :
    String → Option Nat :=
  fold_map recs (kfoldTestGroups shuffle seed recs.length N_FOLDS)

/-- List `fold_records[i]`: the records of test fold `i`, in `recs` order (the
loop `for r in recs: fold_records[fold_map[r]].append(r)` appends each
record to its fold's list in traversal order, i.e. filters `recs`). -/
def fold_records (fm : String → Option Nat) (recs : List String) (i : Nat) :
    List String :=
  recs.filter (fun r => decide (fm r = some i))

/-- List `combined_records[i] = [r for r in recs if fold_map[r] != i]`. -/
def combined_records (fm : String → Option Nat) (recs : List String) (i : Nat) :
    List String :=
  recs.filter (fun r => !decide (fm r = some i))

/-! ## Per-record label lookup and class dict (step 5 of `main`) -/

/-- Lookup `int(ref.loc[ref.record == rec, 'int_label'])`: select the filtered
rows whose record field equals `rec`; `int(...)` of the selection succeeds
only when it has exactly one element (otherwise pandas raises, modelled as
`none`). -/
def lookupLabel (rows : List Row) (rec : String) : Option Int :=
  match rows.filter (fun row => decide (row.record = rec)) with
  | [row] => some row.int_label
  | _ => none

/-- The dict lookup `{0:"normal",1:"AF",2:"other"}[lbl]` (a `KeyError`,
i.e. `none`, outside the three keys). -/
def clsMap : Int → Option String :=
  fun l => if l = 0 then some "normal" else if l = 1 then some "AF"
           else if l = 2 then some "other" else none

/-! ## Writer (step 5 of `main`)

A run's effect is the list of `np.save` calls, each a `(path, content)`
pair.  `np.save` is a deterministic serializer, so two saved files are
byte-identical exactly when the saved contents are equal. -/

inductive Content (σ : Type) where
  | arr (a : NDArray σ)
  | lab (l : Int)
  deriving DecidableEq, Repr

abbrev Save (σ : Type) := String × Content σ

inductive RunErr where
  | load (e : LoadErr)
  | labelConv
  | classKey (l : Int)
  deriving DecidableEq, Repr

/-- The run environment: the element cast of `astype(np.float32)`, the
filesystem, and the two external transforms imported from `utils`. -/
structure Env (σ : Type) where
  cast : σ → σ
  fs : FileSystem σ
  signal_processing : NDArray σ → NDArray σ
  normalization_processing : NDArray σ → NDArray σ

/-- Combined-fold directory name:
`"fold" + "".join(str(j) for j in range(N_FOLDS) if j != i)`. -/
def combinedName (i : Nat) : String :=
  "fold" ++ String.join (((List.range N_FOLDS).filter (fun j => !decide (j = i))).map toString)

/-- Body of the test-fold loop (step 5a) for one `(idx, rec)`: load,
process, look up the label, and save data + label under `fold{i}` and under
its class subfolder.  (On an error Python may already have performed some
of the four saves before aborting; the model keeps only the saves of
records that complete, since every claim concerns completed records.) -/
def saveTestRecord (env : Env σ) (rows : List Row) (i : Nat)
    (idxrec : Nat × String) : Except RunErr (List (Save σ)) :=
  let idx := idxrec.1
  let rec0 := idxrec.2
  let sf := "fold" ++ toString i
  match load_ecg env.cast env.fs rec0 with
  | .error e => .error (.load e)
  | .ok raw =>
    let proc := env.normalization_processing (env.signal_processing raw)
    match lookupLabel rows rec0 with
    | none => .error .labelConv
    | some lbl =>
      let out := toString idx ++ ".npy"
      match clsMap lbl with
      | none => .error (.classKey lbl)
      | some cls =>
        .ok [(pathJoin (pathJoin (pathJoin FOLDS_DIR sf) "data") out, Content.arr proc),
             (pathJoin (pathJoin (pathJoin FOLDS_DIR sf) "label") out, Content.lab lbl),
             (pathJoin (pathJoin (pathJoin (pathJoin FOLDS_DIR sf) cls) "data") out,
               Content.arr proc),
             (pathJoin (pathJoin (pathJoin (pathJoin FOLDS_DIR sf) cls) "label") out,
               Content.lab lbl)]

/-- Body of the combined-fold loop (step 5b) for one `(idx, rec)`. -/
def saveTrainRecord (env : Env σ) (rows : List Row) (i : Nat)
    (idxrec : Nat × String) : Except RunErr (List (Save σ)) :=
  let idx := idxrec.1
  let rec0 := idxrec.2
  let cf := combinedName i
  match load_ecg env.cast env.fs rec0 with
  | .error e => .error (.load e)
  | .ok raw =>
    let proc := env.normalization_processing (env.signal_processing raw)
    match lookupLabel rows rec0 with
    | none => .error .labelConv
    | some lbl =>
      let out := toString idx ++ ".npy"
      .ok [(pathJoin (pathJoin (pathJoin FOLDS_DIR cf) "data") out, Content.arr proc),
           (pathJoin (pathJoin (pathJoin FOLDS_DIR cf) "label") out, Content.lab lbl)]

/-- Run a per-item save over a list, concatenating the writes; the first
error aborts the run (an uncaught Python exception). -/
def saveLoop (f : ι → Except RunErr (List (Save σ))) :
    List ι → Except RunErr (List (Save σ))
  | [] => Except.ok []
  | x :: xs =>
    match f x with
    | .error e => .error e
    | .ok w =>
      match saveLoop f xs with
      | .error e => .error e
      | .ok ws => .ok (w ++ ws)

/-- Step 5 for fold `i`: the test loop over `enumerate(fold_records[i])`
then the train loop over `enumerate(combined_records[i])`. -/
def foldWrites (env : Env σ) (rows : List Row) (fm : String → Option Nat)
    (recs : List String) (i : Nat) : Except RunErr (List (Save σ)) :=
  match saveLoop (saveTestRecord env rows i) (fold_records fm recs i).enum with
  | .error e => .error e
  | .ok test =>
    match saveLoop (saveTrainRecord env rows i) (combined_records fm recs i).enum with
    | .error e => .error e
    | .ok train => .ok (test ++ train)

/-- Steps 1, 2, 3 and 5 of `main`: every `np.save` write of a run, in
order (steps 0 and 4, the directory reset, are modelled separately). -/
def mainWrites (shuffle : Nat → Nat → List Nat) (env : Env σ)
    (csv : List (String × String)) : Except RunErr (List (Save σ)) :=
  let rows := refFiltered csv
  let recs := rows.map Row.record
  let fm := assignFolds shuffle SEED recs
  saveLoop (foldWrites env rows fm recs) (List.range N_FOLDS)

/-! ## Directory tree (`make_dirs` and step 0 of `main`)

The directory state is the list of existing directory paths. -/

/-- Split a character list at `/`, accumulating the current component. -/
def splitParts : List Char → List Char → List (List Char)
  | [], acc => [acc.reverse]
  | c :: cs, acc =>
    if c = '/' then acc.reverse :: splitParts cs []
    else splitParts cs (c :: acc)

/-- Rejoin path components with the separator. -/
def joinSep : List String → String
  | [] => ""
  | [x] => x
  | x :: xs => x ++ pathSep ++ joinSep (xs)

/-- All ancestor paths of `p`, outermost first, `p` itself last. -/
def ancestors (p : String) : List String :=
  let parts := (splitParts p.data []).map String.mk
  (List.range parts.length).map (fun k => joinSep (parts.take (k + 1)))

/-- Creation `os.makedirs(p, exist_ok=True)`: create `p` and any missing ancestors;
a no-op on directories that already exist (no error). -/
def makedirs (st : List String) (p : String) : List String :=
  (ancestors p).foldl (fun st q => if q ∈ st then st else st ++ [q]) st

/-- The ordered list of paths `make_dirs` passes to `os.makedirs`:
`data`/`label` under every single and combined fold directory, then
`data`/`label` under every class subdirectory of every single fold. -/
def make_dirs_paths : List String :=
  let singles := (List.range N_FOLDS).map (fun i => "fold" ++ toString i)
  let combined := (List.range N_FOLDS).map combinedName
  ((singles ++ combined).flatMap (fun fd =>
      ["data", "label"].map (fun sub => pathJoin (pathJoin FOLDS_DIR fd) sub)))
  ++ (singles.flatMap (fun fd =>
      ["AF", "normal", "other"].flatMap (fun cls =>
        ["data", "label"].map (fun sub =>
          pathJoin (pathJoin (pathJoin FOLDS_DIR fd) cls) sub))))

/-- The directory-state effect of `make_dirs()`. -/
def make_dirs (st : List String) : List String :=
  make_dirs_paths.foldl makedirs st

/-- Whether a path is the output root `folds` or lies below it. -/
def underFoldsRoot (p : String) : Bool :=
  decide (p = FOLDS_DIR) || (FOLDS_DIR ++ pathSep).isPrefixOf p

/-- Step 0 of `main`: `if os.path.exists(FOLDS_DIR): shutil.rmtree(FOLDS_DIR)` —
remove the output root and everything under it (a no-op on the rest). -/
def rmtreeFolds (st : List String) : List String :=
  st.filter (fun p => !underFoldsRoot p)

/-- The directory-state effect of one run of `main` (steps 0 and 4). -/
def mainDirs (st : List String) : List String :=
  make_dirs (rmtreeFolds st)

/-! # Helper lemmas -/

theorem LABEL_MAP_of_mem_refFiltered {csv : List (String × String)} {row : Row}
    (h : row ∈ refFiltered csv) : LABEL_MAP row.label = some row.int_label := by
  rcases List.mem_filterMap.mp h with ⟨rl, _, hrl⟩
  rcases Option.map_eq_some'.mp hrl with ⟨il, hil, hrow⟩
  subst hrow
  exact hil

/-! # Claim theorems -/

/-- Spec-side restatement of the reference-table filter: keep exactly the
rows whose label lies in `{N, A, O}` and map `N ↦ 0`, `A ↦ 1`, `O ↦ 2`. -/
def refFilteredSpec (csv : List (String × String)) : List Row :=
  (csv.filter (fun rl => rl.2 == "N" || rl.2 == "A" || rl.2 == "O")).map
    (fun rl => { record := rl.1, label := rl.2,
                 int_label := if rl.2 = "N" then 0 else if rl.2 = "A" then 1 else 2 })

/-- C7: the reference-table loader keeps exactly the rows whose label is in
the fixed set `{N, A, O}`, silently dropping all other rows (it is a total
filter, not an error), and maps the kept labels to integers `N ↦ 0`,
`A ↦ 1`, `O ↦ 2`. -/
theorem C7_ref_filter (csv : List (String × String)) :
    refFiltered csv = refFilteredSpec csv := by
  induction csv with
  | nil => rfl
  | cons hd tl ih =>
    unfold refFiltered refFilteredSpec at ih ⊢
    rw [List.filterMap_cons, List.filter_cons]
    by_cases h1 : hd.2 = "N"
    · have hm : LABEL_MAP "N" = some 0 := by simp [LABEL_MAP]
      simp [hm, h1, ih]
    · by_cases h2 : hd.2 = "A"
      · have hm : LABEL_MAP "A" = some 1 := by simp [LABEL_MAP]
        simp [hm, h1, h2, ih]
      · by_cases h3 : hd.2 = "O"
        · have hm : LABEL_MAP "O" = some 2 := by simp [LABEL_MAP]
          simp [hm, h1, h2, h3, ih]
        · have hm : LABEL_MAP hd.2 = none := by simp [LABEL_MAP, h1, h2, h3]
          simp [hm, h1, h2, h3, ih]

/-- C9: the class subdirectory of a test-fold record is determined by its
original CSV label through the two hard-coded maps (`N ↦ 0 ↦ normal`,
`A ↦ 1 ↦ AF`, `O ↦ 2 ↦ other`), and because label filtering restricts the
integer labels to `{0, 1, 2}` the class-dict lookup is total on every
filtered row (its `KeyError` branch is unreachable). -/
theorem C9_class_total (csv : List (String × String)) :
    ∀ row ∈ refFiltered csv,
      clsMap row.int_label =
        some (if row.label = "N" then "normal"
              else if row.label = "A" then "AF" else "other") ∧
      (clsMap row.int_label).isSome := by
  intro row hrow
  have hm := LABEL_MAP_of_mem_refFiltered hrow
  unfold LABEL_MAP at hm
  by_cases h1 : row.label = "N"
  · simp only [h1, if_pos rfl] at hm
    have h0 : row.int_label = 0 := (Option.some.inj hm).symm
    simp [clsMap, h0, h1]
  · by_cases h2 : row.label = "A"
    · simp only [h1, h2, ite_true, ite_false, if_neg, if_pos rfl] at hm
      have h0 : row.int_label = 1 := (Option.some.inj hm).symm
      simp [clsMap, h0, h1, h2]
    · by_cases h3 : row.label = "O"
      · simp only [h1, h2, h3, ite_true, ite_false] at hm
        have h0 : row.int_label = 2 := (Option.some.inj hm).symm
        simp [clsMap, h0, h1, h2, h3]
      · simp [h1, h2, h3] at hm

/-- Witness for C9 at the concrete CSV `[("r1", "A")]`. -/
theorem C9_class_total_witness :
    clsMap (1 : Int) =
      some (if ("A" : String) = "N" then "normal"
            else if ("A" : String) = "A" then "AF" else "other") ∧
    (clsMap (1 : Int)).isSome :=
  C9_class_total [("r1", "A")] ⟨"r1", "A", 1⟩ (by decide)

/-- C10: the per-record label lookup `int(ref.loc[ref.record == rec,
'int_label'])` returns the record's mapped integer label when the record
identifier occurs exactly once among the filtered rows, and raises (here:
`none`) whenever the identifier occurs zero or several times — uniqueness
of identifiers is a required input invariant. -/
theorem C10_label_lookup (rows : List Row) (rec : String) :
    (∀ row ∈ rows, row.record = rec →
       rows.countP (fun r0 => decide (r0.record = rec)) = 1 →
       lookupLabel rows rec = some row.int_label) ∧
    (rows.countP (fun r0 => decide (r0.record = rec)) ≠ 1 →
       lookupLabel rows rec = none) := by
  constructor
  · intro row hrow hrec hcount
    rw [List.countP_eq_length_filter] at hcount
    rcases List.length_eq_one.mp hcount with ⟨a, ha⟩
    have hmem : row ∈ rows.filter (fun r0 => decide (r0.record = rec)) :=
      List.mem_filter.mpr ⟨hrow, by simp [hrec]⟩
    rw [ha] at hmem
    rcases List.mem_singleton.mp hmem with rfl
    unfold lookupLabel
    rw [ha]
  · intro hcount
    rw [List.countP_eq_length_filter] at hcount
    unfold lookupLabel
    rcases hl : rows.filter (fun r0 => decide (r0.record = rec)) with _ | ⟨a, _ | ⟨b, t⟩⟩
    · rw [hl]
    · rw [hl] at hcount
      simp at hcount
    · rw [hl]

/-- Witness for C10 at concrete rows `[⟨"a", "N", 0⟩]`, record `"a"`. -/
theorem C10_label_lookup_witness :
    lookupLabel [⟨"a", "N", 0⟩] "a" = some (0 : Int) :=
  (C10_label_lookup [⟨"a", "N", 0⟩] "a").1 ⟨"a", "N", 0⟩ (by decide) rfl (by decide)

/-- C3: `load_ecg` resolves a record in strict order: if the MATLAB file
exists it extracts field `val`, else field `ecg`, and raises a
missing-variable `KeyError` if neither key exists; if the MATLAB file is
absent but the WFDB data file exists it returns the first channel of the
multi-channel signal; if neither exists it raises a `FileNotFoundError`
whose message references the record identifier. -/
theorem C3_load_resolution {σ : Type} (cast : σ → σ) (fs : FileSystem σ) (rec : String) :
    (fs.pathExists (mat_path rec) = true →
       (∀ v, fs.loadmat (mat_path rec) "val" = some v →
          load_ecg cast fs rec = .ok ((v.squeeze).astype cast .f32)) ∧
       (fs.loadmat (mat_path rec) "val" = none →
          ∀ v, fs.loadmat (mat_path rec) "ecg" = some v →
            load_ecg cast fs rec = .ok ((v.squeeze).astype cast .f32)) ∧
       (fs.loadmat (mat_path rec) "val" = none →
          fs.loadmat (mat_path rec) "ecg" = none →
            load_ecg cast fs rec =
              .error (.keyError ("No ECG variable found in " ++ mat_path rec)))) ∧
    (fs.pathExists (mat_path rec) = false → fs.pathExists (dat_path rec) = true →
       load_ecg cast fs rec =
         .ok (((fs.rdsamp (wfdb_path rec)).col0).astype cast .f32)) ∧
    (fs.pathExists (mat_path rec) = false → fs.pathExists (dat_path rec) = false →
       ∃ pre, load_ecg cast fs rec = .error (.fileNotFoundError (pre ++ rec))) := by
  refine ⟨fun hmat => ⟨?_, ?_, ?_⟩, ?_, ?_⟩
  · intro v hv
    simp [load_ecg, hmat, hv]
  · intro hval v hecg
    simp [load_ecg, hmat, hval, hecg]
  · intro hval hecg
    simp [load_ecg, hmat, hval, hecg]
  · intro hmat hdat
    simp [load_ecg, hmat, hdat]
  · intro hmat hdat
    exact ⟨"Neither " ++ mat_path rec ++ " nor " ++ dat_path rec ++ " found for record ",
      by simp [load_ecg, hmat, hdat]⟩

/-- A concrete filesystem holding only the WFDB pair for record `A1`. -/
def c3fs : FileSystem Int where
  pathExists := fun p => p == dat_path "A1"
  loadmat := fun _ _ => none
  rdsamp := fun _ => { dtype := .f64, rows := [(5, [7]), (6, [8])] }

/-- Witness for C3: on `c3fs` the MATLAB file is absent, the WFDB data file
is present, and `load_ecg` returns its first channel. -/
theorem C3_load_resolution_witness :
    load_ecg (fun x : Int => x) c3fs "A1" =
      .ok (((c3fs.rdsamp (wfdb_path "A1")).col0).astype (fun x => x) .f32) :=
  (C3_load_resolution (fun x : Int => x) c3fs "A1").2.1 (by decide) (by decide)

/-- A concrete filesystem whose MATLAB container for `A1` holds a genuinely
2-dimensional `val` field of shape `(2, 2)`. -/
def c4fs : FileSystem Int where
  pathExists := fun p => p == mat_path "A1"
  loadmat := fun _ k =>
    if k == "val" then some { dtype := .i16, shape := [2, 2], data := [1, 2, 3, 4] }
    else none
  rdsamp := fun _ => { dtype := .f64, rows := [] }

/-- C4 counterexample: the claim says the returned array is 1-dimensional
for every original shape, but a MATLAB `val` field of shape `(2, 2)` is
unchanged by `squeeze`, so `load_ecg` returns a 2-dimensional array. -/
theorem C4_counterexample :
    (load_ecg (fun x : Int => x) c4fs "A1").toOption.map (fun a => a.shape.length) =
      some 2 := by
  decide

/-- C4 as amended: the result of `load_ecg` always has dtype float32; the
MATLAB-`val` result is exactly the raw field contents squeezed and cast;
the result is 1-dimensional whenever the squeezed source shape is
1-dimensional (which the WFDB first-channel extraction always is), but not
for arbitrary original shapes. -/
theorem C4_dtype_shape {σ : Type} (cast : σ → σ) (fs : FileSystem σ) (rec : String) :
    (∀ arr, load_ecg cast fs rec = .ok arr → arr.dtype = .f32) ∧
    (fs.pathExists (mat_path rec) = true →
       ∀ v, fs.loadmat (mat_path rec) "val" = some v →
         load_ecg cast fs rec = .ok ((v.squeeze).astype cast .f32) ∧
         ((v.squeeze).shape.length = 1 →
            ∀ arr, load_ecg cast fs rec = .ok arr → arr.shape.length = 1)) ∧
    (fs.pathExists (mat_path rec) = false → fs.pathExists (dat_path rec) = true →
       ∀ arr, load_ecg cast fs rec = .ok arr → arr.shape.length = 1) := by
  refine ⟨?_, ?_, ?_⟩
  · intro arr h
    unfold load_ecg at h
    split at h
    · dsimp only at h
      split at h
      · cases h
        rfl
      · split at h
        · cases h
          rfl
        · cases h
    · split at h
      · cases h
        rfl
      · cases h
  · intro hmat v hv
    have hok : load_ecg cast fs rec = .ok ((v.squeeze).astype cast .f32) := by
      simp [load_ecg, hmat, hv]
    refine ⟨hok, ?_⟩
    intro hsq arr h
    rw [hok] at h
    cases h
    simpa [NDArray.astype] using hsq
  · intro hmat hdat arr h
    have hok : load_ecg cast fs rec =
        .ok (((fs.rdsamp (wfdb_path rec)).col0).astype cast .f32) := by
      simp [load_ecg, hmat, hdat]
    rw [hok] at h
    cases h
    rfl

/-- Witness for the amended C4 on `c4fs`: the returned 2-D array still has
dtype float32. -/
theorem C4_dtype_shape_witness :
    (⟨DType.f32, [2, 2], [1, 2, 3, 4]⟩ : NDArray Int).dtype = DType.f32 :=
  (C4_dtype_shape (fun x : Int => x) c4fs "A1").1 ⟨DType.f32, [2, 2], [1, 2, 3, 4]⟩
    (by rfl)

/-! ## Writer helper lemmas -/

/-- The processed waveform of a record: both external transforms applied,
in the source's fixed order, to the loaded raw waveform. -/
def procOf (env : Env σ) (rawOf : String → NDArray σ) (rec : String) : NDArray σ :=
  env.normalization_processing (env.signal_processing (rawOf rec))

/-- The output file name `f"{idx}.npy"`. -/
def npyName (idx : Nat) : String := toString idx ++ ".npy"

/-- The test-fold directory `folds/fold{i}`. -/
def fold_dir (i : Nat) : String := pathJoin FOLDS_DIR ("fold" ++ toString i)

/-- The combined-fold directory `folds/fold{concat of j ≠ i}`. -/
def combined_dir (i : Nat) : String := pathJoin FOLDS_DIR (combinedName i)

/-- The four writes a completed test-fold record produces. -/
def testRecordWrites (env : Env σ) (rawOf : String → NDArray σ) (lblOf : String → Int)
    (clsOf : String → String) (i : Nat) (idxrec : Nat × String) : List (Save σ) :=
  [(pathJoin (pathJoin (fold_dir i) "data") (npyName idxrec.1),
     Content.arr (procOf env rawOf idxrec.2)),
   (pathJoin (pathJoin (fold_dir i) "label") (npyName idxrec.1),
     Content.lab (lblOf idxrec.2)),
   (pathJoin (pathJoin (pathJoin (fold_dir i) (clsOf idxrec.2)) "data") (npyName idxrec.1),
     Content.arr (procOf env rawOf idxrec.2)),
   (pathJoin (pathJoin (pathJoin (fold_dir i) (clsOf idxrec.2)) "label") (npyName idxrec.1),
     Content.lab (lblOf idxrec.2))]

/-- The two writes a completed combined-fold record produces. -/
def trainRecordWrites (env : Env σ) (rawOf : String → NDArray σ) (lblOf : String → Int)
    (i : Nat) (idxrec : Nat × String) : List (Save σ) :=
  [(pathJoin (pathJoin (combined_dir i) "data") (npyName idxrec.1),
     Content.arr (procOf env rawOf idxrec.2)),
   (pathJoin (pathJoin (combined_dir i) "label") (npyName idxrec.1),
     Content.lab (lblOf idxrec.2))]

theorem saveTestRecord_ok (env : Env σ) (rows : List Row) (i idx : Nat) (rec : String)
    (rawOf : String → NDArray σ) (lblOf : String → Int) (clsOf : String → String)
    (hload : load_ecg env.cast env.fs rec = .ok (rawOf rec))
    (hlbl : lookupLabel rows rec = some (lblOf rec))
    (hcls : clsMap (lblOf rec) = some (clsOf rec)) :
    saveTestRecord env rows i (idx, rec) =
      .ok (testRecordWrites env rawOf lblOf clsOf i (idx, rec)) := by
  simp [saveTestRecord, testRecordWrites, procOf, npyName, fold_dir,
    hload, hlbl, hcls, Except.mapError]

theorem saveTrainRecord_ok (env : Env σ) (rows : List Row) (i idx : Nat) (rec : String)
    (rawOf : String → NDArray σ) (lblOf : String → Int)
    (hload : load_ecg env.cast env.fs rec = .ok (rawOf rec))
    (hlbl : lookupLabel rows rec = some (lblOf rec)) :
    saveTrainRecord env rows i (idx, rec) =
      .ok (trainRecordWrites env rawOf lblOf i (idx, rec)) := by
  simp [saveTrainRecord, trainRecordWrites, procOf, npyName, combined_dir,
    hload, hlbl, Except.mapError]

theorem saveLoop_ok {ι : Type} (f : ι → Except RunErr (List (Save σ)))
    (g : ι → List (Save σ)) (xs : List ι) (h : ∀ x ∈ xs, f x = .ok (g x)) :
    saveLoop f xs = .ok (xs.flatMap g) := by
  induction xs with
  | nil => rfl
  | cons x xs ih =>
    unfold saveLoop
    rw [h x (List.mem_cons_self x xs), ih (fun y hy => h y (List.mem_cons_of_mem x hy))]
    rfl

theorem snd_mem_of_mem_enum {α : Type} {l : List α} {p : Nat × α} (h : p ∈ l.enum) :
    p.2 ∈ l := by
  rcases p with ⟨i, x⟩
  rw [List.enum] at h
  rcases List.mem_enumFrom h with ⟨-, -, hx⟩
  rw [hx]
  exact List.getElem_mem _

theorem foldWrites_ok (env : Env σ) (rows : List Row) (fm : String → Option Nat)
    (recs : List String) (i : Nat) (rawOf : String → NDArray σ)
    (lblOf : String → Int) (clsOf : String → String)
    (hload : ∀ r ∈ recs, load_ecg env.cast env.fs r = .ok (rawOf r))
    (hlbl : ∀ r ∈ recs, lookupLabel rows r = some (lblOf r))
    (hcls : ∀ r ∈ recs, clsMap (lblOf r) = some (clsOf r)) :
    foldWrites env rows fm recs i = .ok
      ((fold_records fm recs i).enum.flatMap (testRecordWrites env rawOf lblOf clsOf i) ++
       (combined_records fm recs i).enum.flatMap (trainRecordWrites env rawOf lblOf i)) := by
  have harg1 : ∀ x ∈ (fold_records fm recs i).enum,
      saveTestRecord env rows i x = .ok (testRecordWrites env rawOf lblOf clsOf i x) := by
    intro x hx
    obtain ⟨idx, r⟩ := x
    have hr : r ∈ recs := (List.mem_filter.mp (snd_mem_of_mem_enum hx)).1
    exact saveTestRecord_ok env rows i idx r rawOf lblOf clsOf
      (hload r hr) (hlbl r hr) (hcls r hr)
  have harg2 : ∀ x ∈ (combined_records fm recs i).enum,
      saveTrainRecord env rows i x = .ok (trainRecordWrites env rawOf lblOf i x) := by
    intro x hx
    obtain ⟨idx, r⟩ := x
    have hr : r ∈ recs := (List.mem_filter.mp (snd_mem_of_mem_enum hx)).1
    exact saveTrainRecord_ok env rows i idx r rawOf lblOf (hload r hr) (hlbl r hr)
  have htest := saveLoop_ok (saveTestRecord env rows i)
      (testRecordWrites env rawOf lblOf clsOf i) (fold_records fm recs i).enum harg1
  have htrain := saveLoop_ok (saveTrainRecord env rows i)
      (trainRecordWrites env rawOf lblOf i) (combined_records fm recs i).enum harg2
  unfold foldWrites
  rw [htest, htrain]

/-- C5: for each record of a fold's list (test or train), taken in
enumeration order starting at 0, the writer stores the processed array and
the integer label under `{index}.npy` in the fold's `data` and `label`
directories, and for test-fold records it additionally writes duplicates
under the matching class subdirectory whose contents (`cd`, `cl`) are
identical to the main test-fold files' contents. -/
theorem C5_writer {σ : Type} (env : Env σ) (rows : List Row) (i : Nat)
    (tl trl : List String) (rawOf : String → NDArray σ) (lblOf : String → Int)
    (clsOf : String → String) (tws trws : List (Save σ))
    (hload : ∀ r ∈ tl, load_ecg env.cast env.fs r = .ok (rawOf r))
    (hlbl : ∀ r ∈ tl, lookupLabel rows r = some (lblOf r))
    (hcls : ∀ r ∈ tl, clsMap (lblOf r) = some (clsOf r))
    (hloadt : ∀ r ∈ trl, load_ecg env.cast env.fs r = .ok (rawOf r))
    (hlblt : ∀ r ∈ trl, lookupLabel rows r = some (lblOf r))
    (htw : saveLoop (saveTestRecord env rows i) tl.enum = .ok tws)
    (htrw : saveLoop (saveTrainRecord env rows i) trl.enum = .ok trws) :
    (∀ k, (hk : k < tl.length) →
       ∃ cd cl, cd = Content.arr (procOf env rawOf tl[k]) ∧
         cl = Content.lab (lblOf tl[k]) ∧
         (pathJoin (pathJoin (fold_dir i) "data") (npyName k), cd) ∈ tws ∧
         (pathJoin (pathJoin (fold_dir i) "label") (npyName k), cl) ∈ tws ∧
         (pathJoin (pathJoin (pathJoin (fold_dir i) (clsOf tl[k])) "data") (npyName k), cd) ∈ tws ∧
         (pathJoin (pathJoin (pathJoin (fold_dir i) (clsOf tl[k])) "label") (npyName k), cl) ∈ tws) ∧
    (∀ k, (hk : k < trl.length) →
       (pathJoin (pathJoin (combined_dir i) "data") (npyName k),
         Content.arr (procOf env rawOf trl[k])) ∈ trws ∧
       (pathJoin (pathJoin (combined_dir i) "label") (npyName k),
         Content.lab (lblOf trl[k])) ∈ trws) := by
  have harg1 : ∀ x ∈ tl.enum,
      saveTestRecord env rows i x = .ok (testRecordWrites env rawOf lblOf clsOf i x) := by
    intro x hx
    obtain ⟨idx, r⟩ := x
    have hr : r ∈ tl := snd_mem_of_mem_enum hx
    exact saveTestRecord_ok env rows i idx r rawOf lblOf clsOf
      (hload r hr) (hlbl r hr) (hcls r hr)
  have harg2 : ∀ x ∈ trl.enum,
      saveTrainRecord env rows i x = .ok (trainRecordWrites env rawOf lblOf i x) := by
    intro x hx
    obtain ⟨idx, r⟩ := x
    have hr : r ∈ trl := snd_mem_of_mem_enum hx
    exact saveTrainRecord_ok env rows i idx r rawOf lblOf (hloadt r hr) (hlblt r hr)
  have e1 := saveLoop_ok (saveTestRecord env rows i)
      (testRecordWrites env rawOf lblOf clsOf i) tl.enum harg1
  have e2 := saveLoop_ok (saveTrainRecord env rows i)
      (trainRecordWrites env rawOf lblOf i) trl.enum harg2
  have htws : tws = tl.enum.flatMap (testRecordWrites env rawOf lblOf clsOf i) :=
    Except.ok.inj (htw.symm.trans e1)
  have htrws : trws = trl.enum.flatMap (trainRecordWrites env rawOf lblOf i) :=
    Except.ok.inj (htrw.symm.trans e2)
  subst htws htrws
  constructor
  · intro k hk
    have hk' : k < tl.enum.length := by simpa using hk
    have henum : (k, tl[k]) ∈ tl.enum := by
      have := List.getElem_mem hk'
      rwa [List.getElem_enum] at this
    exact ⟨_, _, rfl, rfl,
      List.mem_flatMap.mpr ⟨(k, tl[k]), henum, by simp [testRecordWrites]⟩,
      List.mem_flatMap.mpr ⟨(k, tl[k]), henum, by simp [testRecordWrites]⟩,
      List.mem_flatMap.mpr ⟨(k, tl[k]), henum, by simp [testRecordWrites]⟩,
      List.mem_flatMap.mpr ⟨(k, tl[k]), henum, by simp [testRecordWrites]⟩⟩
  · intro k hk
    have hk' : k < trl.enum.length := by simpa using hk
    have henum : (k, trl[k]) ∈ trl.enum := by
      have := List.getElem_mem hk'
      rwa [List.getElem_enum] at this
    exact ⟨List.mem_flatMap.mpr ⟨(k, trl[k]), henum, by simp [trainRecordWrites]⟩,
      List.mem_flatMap.mpr ⟨(k, trl[k]), henum, by simp [trainRecordWrites]⟩⟩

theorem mainWrites_ok (shuffle : Nat → Nat → List Nat) (env : Env σ)
    (csv : List (String × String)) (rawOf : String → NDArray σ)
    (lblOf : String → Int) (clsOf : String → String)
    (hload : ∀ r ∈ (refFiltered csv).map Row.record,
      load_ecg env.cast env.fs r = .ok (rawOf r))
    (hlbl : ∀ r ∈ (refFiltered csv).map Row.record,
      lookupLabel (refFiltered csv) r = some (lblOf r))
    (hcls : ∀ r ∈ (refFiltered csv).map Row.record,
      clsMap (lblOf r) = some (clsOf r)) :
    mainWrites shuffle env csv = .ok ((List.range N_FOLDS).flatMap (fun i =>
      (fold_records (assignFolds shuffle SEED ((refFiltered csv).map Row.record))
          ((refFiltered csv).map Row.record) i).enum.flatMap
        (testRecordWrites env rawOf lblOf clsOf i) ++
      (combined_records (assignFolds shuffle SEED ((refFiltered csv).map Row.record))
          ((refFiltered csv).map Row.record) i).enum.flatMap
        (trainRecordWrites env rawOf lblOf i))) := by
  unfold mainWrites
  exact saveLoop_ok _ _ _ (fun i _ =>
    foldWrites_ok env (refFiltered csv) _ _ i rawOf lblOf clsOf hload hlbl hcls)

/-- C8: in a completed run, every waveform array that is persisted (in the
test fold and in each combined fold) equals `normalization_processing`
applied to `signal_processing` applied to the raw loaded waveform of some
filtered record — the two external transforms are applied in that fixed
order to every record's raw waveform before any file is written. -/
theorem C8_processing_order {σ : Type} (shuffle : Nat → Nat → List Nat)
    (env : Env σ) (csv : List (String × String)) (rawOf : String → NDArray σ)
    (lblOf : String → Int) (clsOf : String → String) (ws : List (Save σ))
    (hload : ∀ r ∈ (refFiltered csv).map Row.record,
      load_ecg env.cast env.fs r = .ok (rawOf r))
    (hlbl : ∀ r ∈ (refFiltered csv).map Row.record,
      lookupLabel (refFiltered csv) r = some (lblOf r))
    (hcls : ∀ r ∈ (refFiltered csv).map Row.record,
      clsMap (lblOf r) = some (clsOf r))
    (hws : mainWrites shuffle env csv = .ok ws) :
    ∀ pc ∈ ws, ∀ a, pc.2 = Content.arr a →
      ∃ r ∈ (refFiltered csv).map Row.record,
        load_ecg env.cast env.fs r = .ok (rawOf r) ∧
        a = env.normalization_processing (env.signal_processing (rawOf r)) := by
  have hmain := mainWrites_ok shuffle env csv rawOf lblOf clsOf hload hlbl hcls
  have hwseq := Except.ok.inj (hws.symm.trans hmain)
  subst hwseq
  intro pc hpc a ha
  obtain ⟨i, _, hpc2⟩ := List.mem_flatMap.mp hpc
  rcases List.mem_append.mp hpc2 with hpart | hpart
  · obtain ⟨x, hx, hpcx⟩ := List.mem_flatMap.mp hpart
    have hr : x.2 ∈ (refFiltered csv).map Row.record :=
      (List.mem_filter.mp (snd_mem_of_mem_enum hx)).1
    refine ⟨x.2, hr, hload _ hr, ?_⟩
    simp only [testRecordWrites, List.mem_cons, List.not_mem_nil, or_false] at hpcx
    rcases hpcx with h | h | h | h <;> subst h
    · have ha' : Content.arr (procOf env rawOf x.2) = Content.arr a := ha
      injection ha' with h2
      rw [← h2]
      rfl
    · have ha' : Content.lab (lblOf x.2) = Content.arr a := ha
      cases ha'
    · have ha' : Content.arr (procOf env rawOf x.2) = Content.arr a := ha
      injection ha' with h2
      rw [← h2]
      rfl
    · have ha' : Content.lab (lblOf x.2) = Content.arr a := ha
      cases ha'
  · obtain ⟨x, hx, hpcx⟩ := List.mem_flatMap.mp hpart
    have hr : x.2 ∈ (refFiltered csv).map Row.record :=
      (List.mem_filter.mp (snd_mem_of_mem_enum hx)).1
    refine ⟨x.2, hr, hload _ hr, ?_⟩
    simp only [trainRecordWrites, List.mem_cons, List.not_mem_nil, or_false] at hpcx
    rcases hpcx with h | h <;> subst h
    · have ha' : Content.arr (procOf env rawOf x.2) = Content.arr a := ha
      injection ha' with h2
      rw [← h2]
      rfl
    · have ha' : Content.lab (lblOf x.2) = Content.arr a := ha
      cases ha'

/-! ## Concrete run environment for the writer witnesses -/

def cfs : FileSystem Int where
  pathExists := fun p => (p == mat_path "a") || (p == mat_path "b")
  loadmat := fun _ k =>
    if k == "val" then some { dtype := .i16, shape := [2], data := [3, 4] } else none
  rdsamp := fun _ => { dtype := .f64, rows := [] }

def cenv : Env Int where
  cast := fun x => x
  fs := cfs
  signal_processing := fun a => a
  normalization_processing := fun a => a

def crawOf : String → NDArray Int := fun _ => { dtype := .f32, shape := [2], data := [3, 4] }

def clblOf : String → Int := fun r => if r == "a" then 0 else 1

def cclsOf : String → String := fun r => if r == "a" then "normal" else "AF"

def crows : List Row := [⟨"a", "N", 0⟩, ⟨"b", "A", 1⟩]

def c5tws : List (Save Int) :=
  (["a"] : List String).enum.flatMap (testRecordWrites cenv crawOf clblOf cclsOf 0)

def c5trws : List (Save Int) :=
  (["b"] : List String).enum.flatMap (trainRecordWrites cenv crawOf clblOf 0)

/-- Witness for C5 at a one-record test list and one-record train list. -/
theorem C5_writer_witness :
    (pathJoin (pathJoin (combined_dir 0) "data") (npyName 0),
      Content.arr (procOf cenv crawOf "b")) ∈ c5trws ∧
    (pathJoin (pathJoin (combined_dir 0) "label") (npyName 0),
      Content.lab (clblOf "b")) ∈ c5trws :=
  (C5_writer cenv crows 0 ["a"] ["b"] crawOf clblOf cclsOf c5tws c5trws
    (by intro r hr; rw [List.mem_singleton] at hr; subst hr; rfl)
    (by intro r hr; rw [List.mem_singleton] at hr; subst hr; rfl)
    (by intro r hr; rw [List.mem_singleton] at hr; subst hr; rfl)
    (by intro r hr; rw [List.mem_singleton] at hr; subst hr; rfl)
    (by intro r hr; rw [List.mem_singleton] at hr; subst hr; rfl)
    (by rfl) (by rfl)).2 0 (by decide)

def c8shuffle : Nat → Nat → List Nat := fun _ n => List.range n

def c8csv : List (String × String) := [("a", "N"), ("b", "A")]

def c8ws : List (Save Int) :=
  (List.range N_FOLDS).flatMap (fun i =>
    (fold_records (assignFolds c8shuffle SEED ((refFiltered c8csv).map Row.record))
        ((refFiltered c8csv).map Row.record) i).enum.flatMap
      (testRecordWrites cenv crawOf clblOf cclsOf i) ++
    (combined_records (assignFolds c8shuffle SEED ((refFiltered c8csv).map Row.record))
        ((refFiltered c8csv).map Row.record) i).enum.flatMap
      (trainRecordWrites cenv crawOf clblOf i))

/-- Witness for C8 at a concrete two-record run. -/
theorem C8_processing_order_witness :
    ∃ r ∈ (refFiltered c8csv).map Row.record,
      load_ecg cenv.cast cenv.fs r = .ok (crawOf r) ∧
      procOf cenv crawOf "a" =
        cenv.normalization_processing (cenv.signal_processing (crawOf r)) :=
  C8_processing_order c8shuffle cenv c8csv crawOf clblOf cclsOf c8ws
    (by intro r hr; simp only [show (refFiltered c8csv).map Row.record = ["a", "b"] from rfl,
          List.mem_cons, List.not_mem_nil, or_false] at hr
        rcases hr with rfl | rfl <;> rfl)
    (by intro r hr; simp only [show (refFiltered c8csv).map Row.record = ["a", "b"] from rfl,
          List.mem_cons, List.not_mem_nil, or_false] at hr
        rcases hr with rfl | rfl <;> rfl)
    (by intro r hr; simp only [show (refFiltered c8csv).map Row.record = ["a", "b"] from rfl,
          List.mem_cons, List.not_mem_nil, or_false] at hr
        rcases hr with rfl | rfl <;> rfl)
    (by rfl)
    (pathJoin (pathJoin (fold_dir 0) "data") (npyName 0),
      Content.arr (procOf cenv crawOf "a"))
    (by decide) (procOf cenv crawOf "a") rfl

/-! ## Directory-tree lemmas -/

theorem mem_foldl_insert (ps : List String) (st : List String) (q : String) :
    q ∈ ps.foldl (fun st q' => if q' ∈ st then st else st ++ [q']) st ↔
      q ∈ st ∨ q ∈ ps := by
  induction ps generalizing st with
  | nil => simp
  | cons p ps ih =>
    rw [List.foldl_cons, ih]
    by_cases hp : p ∈ st
    · rw [if_pos hp]
      simp only [List.mem_cons]
      constructor
      · rintro (h | h)
        · exact Or.inl h
        · exact Or.inr (Or.inr h)
      · rintro (h | h | h)
        · exact Or.inl h
        · exact Or.inl (h ▸ hp)
        · exact Or.inr h
    · rw [if_neg hp]
      simp [or_assoc]

theorem foldl_insert_noop (ps : List String) (st : List String)
    (h : ∀ p ∈ ps, p ∈ st) :
    ps.foldl (fun st q' => if q' ∈ st then st else st ++ [q']) st = st := by
  induction ps with
  | nil => rfl
  | cons p ps ih =>
    rw [List.foldl_cons, if_pos (h p (List.mem_cons_self p ps))]
    exact ih (fun p' hp' => h p' (List.mem_cons_of_mem p hp'))

theorem mem_makedirs (st : List String) (p q : String) :
    q ∈ makedirs st p ↔ q ∈ st ∨ q ∈ ancestors p :=
  mem_foldl_insert (ancestors p) st q

theorem makedirs_noop (st : List String) (p : String)
    (h : ∀ q ∈ ancestors p, q ∈ st) : makedirs st p = st :=
  foldl_insert_noop (ancestors p) st h

theorem mem_foldl_makedirs (ps : List String) (st : List String) (q : String) :
    q ∈ ps.foldl makedirs st ↔ q ∈ st ∨ q ∈ ps.flatMap ancestors := by
  induction ps generalizing st with
  | nil => simp
  | cons p ps ih =>
    rw [List.foldl_cons, ih, mem_makedirs]
    simp [or_assoc]

theorem foldl_makedirs_noop (ps : List String) (st : List String)
    (h : ∀ p ∈ ps, ∀ q ∈ ancestors p, q ∈ st) : ps.foldl makedirs st = st := by
  induction ps with
  | nil => rfl
  | cons p ps ih =>
    rw [List.foldl_cons, makedirs_noop st p (h p (List.mem_cons_self p ps))]
    exact ih (fun p' hp' => h p' (List.mem_cons_of_mem p hp'))

/-- Spec-side list of the directories the claim requires: the root, and for
every fold index `i` in `[0,4)` the test directory `fold{i}` with
`data`/`label`, the train directory named by concatenating all fold indices
except `i` with `data`/`label`, and the three class subdirectories of each
test directory with their `data`/`label` subfolders. -/
def specFoldDirs : List String :=
  FOLDS_DIR ::
  (List.range 4).flatMap (fun i =>
    let test := pathJoin FOLDS_DIR ("fold" ++ toString i)
    let train := pathJoin FOLDS_DIR
      ("fold" ++ String.join (((List.range 4).filter (fun j => !decide (j = i))).map toString))
    [test, pathJoin test "data", pathJoin test "label",
     train, pathJoin train "data", pathJoin train "label"] ++
    (["AF", "normal", "other"].flatMap (fun cls =>
      [pathJoin test cls, pathJoin (pathJoin test cls) "data",
       pathJoin (pathJoin test cls) "label"])))

set_option maxHeartbeats 2000000 in
set_option maxRecDepth 100000 in
theorem created_dirs_eq_spec (q : String) :
    q ∈ make_dirs_paths.flatMap ancestors ↔ q ∈ specFoldDirs := by
  have h1 : ∀ p ∈ make_dirs_paths.flatMap ancestors, p ∈ specFoldDirs := by decide
  have h2 : ∀ p ∈ specFoldDirs, p ∈ make_dirs_paths.flatMap ancestors := by decide
  exact ⟨h1 q, h2 q⟩

/-- C6: each run first destroys the prior output tree and then recreates
exactly the spec's directory structure — after `mainDirs`, a path exists
iff it survived from outside the output root or is one of the required
fold/class directories; and every directory creation is idempotent (no
error, no change, when the directory already exists). -/
theorem C6_directory_tree (st : List String) :
    (∀ q, q ∈ mainDirs st ↔
       ((q ∈ st ∧ underFoldsRoot q = false) ∨ q ∈ specFoldDirs)) ∧
    (∀ p, makedirs (makedirs st p) p = makedirs st p) ∧
    make_dirs (make_dirs st) = make_dirs st := by
  refine ⟨?_, ?_, ?_⟩
  · intro q
    unfold mainDirs make_dirs
    rw [mem_foldl_makedirs, created_dirs_eq_spec]
    unfold rmtreeFolds
    rw [List.mem_filter]
    simp [Bool.not_eq_true']
  · intro p
    exact makedirs_noop _ p (fun q hq => (mem_makedirs st p q).mpr (Or.inr hq))
  · unfold make_dirs
    exact foldl_makedirs_noop _ _ (fun p hp q hq =>
      (mem_foldl_makedirs make_dirs_paths st q).mpr
        (Or.inr (List.mem_flatMap.mpr ⟨p, hp, hq⟩)))

/-- C2: the fold assignment is a deterministic function of the seed and
the record ordering — with the library shuffle fixed, two runs on equal
seeds and equal, identically ordered record lists produce identical fold
assignments.  (The numpy RNG consumes only the seed, so the shuffle is a
function of the seed and the list length, which the model makes explicit.) -/
theorem C2_determinism (shuffle : Nat → Nat → List Nat) (seed1 seed2 : Nat)
    (recs1 recs2 : List String) (hseed : seed1 = seed2) (hrecs : recs1 = recs2) :
    assignFolds shuffle seed1 recs1 = assignFolds shuffle seed2 recs2 := by
  subst hseed
  subst hrecs
  rfl

/-- Witness for C2 at seed 42 and a concrete record list. -/
theorem C2_determinism_witness :
    assignFolds (fun _ n => (List.range n).reverse) 42 ["a", "b"] =
      assignFolds (fun _ n => (List.range n).reverse) 42 ["a", "b"] :=
  C2_determinism (fun _ n => (List.range n).reverse) 42 42 ["a", "b"] ["a", "b"] rfl rfl

/-! ## Fold-partition lemmas (C1) -/

theorem foldl_upd_apply (ws : List (String × Nat)) (m : String → Option Nat) (r : String) :
    (ws.foldl (fun m w => updMap m w.1 w.2) m) r =
      match ws.reverse.find? (fun w => decide (w.1 = r)) with
      | some w => some w.2
      | none => m r := by
  induction ws generalizing m with
  | nil => rfl
  | cons w ws ih =>
    rw [List.foldl_cons, ih, List.reverse_cons, List.find?_append]
    cases hfind : ws.reverse.find? (fun w' => decide (w'.1 = r)) with
    | some w' => rw [Option.or_some]
    | none =>
      rw [Option.none_or]
      by_cases hw : w.1 = r
      · subst hw
        simp [List.find?, updMap]
      · have hw' : r ≠ w.1 := fun h => hw h.symm
        simp [List.find?, hw, updMap, hw']

theorem find?_eq_of_filter_singleton {p : α → Bool} {l : List α} {a : α}
    (h : l.filter p = [a]) : l.find? p = some a := by
  induction l with
  | nil => simp at h
  | cons x l ih =>
    rw [List.filter_cons] at h
    by_cases hx : p x
    · rw [if_pos hx] at h
      injection h with h1 h2
      rw [List.find?_cons_of_pos l hx, h1]
    · rw [if_neg hx] at h
      rw [List.find?_cons_of_neg l hx]
      exact ih h

theorem filter_writes_group (recs : List String) (r : String) (j : Nat)
    (hr : recs[j]? = some r) (hinj : ∀ j', recs[j']? = some r → j' = j)
    (i : Nat) (g : List Nat) :
    (g.filterMap (fun j' => (recs[j']?).map (fun r' => (r', i)))).filter
        (fun w => decide (w.1 = r)) =
      (g.filter (fun j' => decide (j' = j))).map (fun _ => (r, i)) := by
  induction g with
  | nil => rfl
  | cons j' g ih =>
    cases hj' : recs[j']? with
    | none =>
      have hne : ¬ j' = j := fun h => by rw [h, hr] at hj'; cases hj'
      simp [List.filterMap_cons, List.filter_cons, hj', hne, ih]
    | some r' =>
      by_cases hrr : r' = r
      · have hjj : j' = j := hinj j' (by rw [hj', hrr])
        subst hrr
        subst hjj
        simp [List.filterMap_cons, List.filter_cons, hj', ih]
      · have hne : ¬ j' = j := fun h => hrr (Option.some.inj (by rw [← hj', h, hr]))
        simp [List.filterMap_cons, List.filter_cons, hj', hrr, hne, ih]

theorem filter_flatMap (l : List α) (f : α → List β) (p : β → Bool) :
    (l.flatMap f).filter p = l.flatMap (fun x => (f x).filter p) := by
  induction l with
  | nil => rfl
  | cons x l ih => simp [List.flatMap_cons, List.filter_append, ih]

theorem count_eq_zero_of_flatten (gs : List (List Nat)) (j : Nat)
    (h : gs.flatten.count j = 0) : ∀ g ∈ gs, g.count j = 0 := by
  induction gs with
  | nil => simp
  | cons g gs ih =>
    rw [List.flatten_cons, List.count_append] at h
    intro g' hg'
    rcases List.mem_cons.mp hg' with rfl | hg'
    · omega
    · exact ih (by omega) g' hg'

theorem enumFrom_flatMap_singleton (r : String) (j : Nat) (k : Nat)
    (gs : List (List Nat)) (hcount : gs.flatten.count j = 1) :
    ∃ gi, gi < gs.length ∧
      (List.enumFrom k gs).flatMap
          (fun ig => (ig.2.filter (fun j' => decide (j' = j))).map (fun _ => (r, ig.1)))
        = [(r, k + gi)] := by
  induction gs generalizing k with
  | nil => simp at hcount
  | cons g gs ih =>
    rw [List.flatten_cons, List.count_append] at hcount
    by_cases hg : g.count j = 0
    · have h1 : g.filter (fun j' => decide (j' = j)) = [] := by
        rw [List.filter_eq, hg]
        rfl
      obtain ⟨gi, hgi, heq⟩ := ih (k + 1) (by omega)
      refine ⟨gi + 1, by simp; omega, ?_⟩
      rw [List.enumFrom_cons, List.flatMap_cons, h1, List.map_nil, List.nil_append, heq]
      have : k + 1 + gi = k + (gi + 1) := by omega
      rw [this]
    · have hg1 : g.count j = 1 := by omega
      have hgs0 : gs.flatten.count j = 0 := by omega
      refine ⟨0, by simp, ?_⟩
      rw [List.enumFrom_cons, List.flatMap_cons]
      have h1 : g.filter (fun j' => decide (j' = j)) = [j] := by
        rw [List.filter_eq, hg1]
        rfl
      have h2 : (List.enumFrom (k + 1) gs).flatMap
          (fun ig => (ig.2.filter (fun j' => decide (j' = j))).map (fun _ => (r, ig.1)))
            = [] := by
        rw [List.flatMap_eq_nil_iff]
        intro ig hig
        have hmem : ig.2 ∈ gs := by
          rcases ig with ⟨i2, g2⟩
          rcases List.mem_enumFrom hig with ⟨-, -, hx⟩
          rw [hx]
          exact List.getElem_mem _
        have hc0 : ig.2.count j = 0 := count_eq_zero_of_flatten gs j hgs0 ig.2 hmem
        rw [List.filter_eq, hc0]
        rfl
      rw [h1, h2, List.append_nil]
      simp

theorem fold_map_unique (recs : List String) (groups : List (List Nat)) (r : String)
    (hnd : recs.Nodup) (j : Nat) (hr : recs[j]? = some r)
    (hcount : groups.flatten.count j = 1) :
    ∃ gi, gi < groups.length ∧ fold_map recs groups r = some gi := by
  have hinj : ∀ j', recs[j']? = some r → j' = j := by
    intro j' hj'
    have hlt : j' < recs.length := by
      by_contra hge
      rw [List.getElem?_eq_none (by omega)] at hj'
      cases hj'
    exact List.getElem?_inj hlt hnd (hj'.trans hr.symm)
  have hfw : (foldMapWrites recs groups).filter (fun w => decide (w.1 = r)) =
      groups.enum.flatMap
        (fun ig => (ig.2.filter (fun j' => decide (j' = j))).map (fun _ => (r, ig.1))) := by
    unfold foldMapWrites
    rw [filter_flatMap]
    congr 1
    funext ig
    exact filter_writes_group recs r j hr hinj ig.1 ig.2
  obtain ⟨gi, hgi, heq⟩ := enumFrom_flatMap_singleton r j 0 groups hcount
  have hfw2 : (foldMapWrites recs groups).filter (fun w => decide (w.1 = r)) = [(r, gi)] := by
    rw [hfw]
    have : List.enum groups = List.enumFrom 0 groups := rfl
    rw [this, heq]
    simp
  have hfind : (foldMapWrites recs groups).reverse.find? (fun w => decide (w.1 = r)) =
      some (r, gi) := by
    apply find?_eq_of_filter_singleton
    rw [List.filter_reverse, hfw2]
    rfl
  refine ⟨gi, hgi, ?_⟩
  unfold fold_map
  rw [foldl_upd_apply, hfind]

theorem splitBySizes_length (ss : List Nat) (xs : List Nat) :
    (splitBySizes ss xs).length = ss.length := by
  induction ss generalizing xs with
  | nil => rfl
  | cons s ss ih => simp [splitBySizes, ih]

theorem flatten_splitBySizes (ss : List Nat) (xs : List Nat) :
    (splitBySizes ss xs).flatten = xs.take ss.sum := by
  induction ss generalizing xs with
  | nil => simp [splitBySizes]
  | cons s ss ih =>
    show (xs.take s :: splitBySizes ss (xs.drop s)).flatten = xs.take ((s :: ss).sum)
    rw [List.flatten_cons, ih, List.sum_cons, List.take_add]

theorem foldSizes_sum (n : Nat) : (foldSizes n 4).sum = n := by
  unfold foldSizes
  rw [show List.range 4 = [0, 1, 2, 3] from rfl]
  simp only [List.map_cons, List.map_nil, List.sum_cons, List.sum_nil]
  have h1 := Nat.div_add_mod n 4
  have h2 : n % 4 < 4 := Nat.mod_lt _ (by omega)
  split_ifs <;> omega

theorem mem_fold_records (fm : String → Option Nat) (recs : List String) (i : Nat)
    (r : String) : r ∈ fold_records fm recs i ↔ r ∈ recs ∧ fm r = some i := by
  simp [fold_records, List.mem_filter]

theorem mem_combined_records (fm : String → Option Nat) (recs : List String) (i : Nat)
    (r : String) : r ∈ combined_records fm recs i ↔ r ∈ recs ∧ ¬ fm r = some i := by
  simp [combined_records, List.mem_filter]

/-- C1: under the k-fold library contract (the shuffled index list is a
permutation of `range n`) and uniqueness of record identifiers, the fold
assignment computed by `main` is a partition: every record is assigned to
exactly one of the 4 test folds, the test folds are pairwise disjoint,
their union equals the full filtered record set, and every record appears
in exactly `N_FOLDS - 1 = 3` combined (train) folds. -/
theorem C1_partition (shuffle : Nat → Nat → List Nat) (recs : List String)
    (fm : String → Option Nat) (hfm : fm = assignFolds shuffle SEED recs)
    (hperm : (shuffle SEED recs.length).Perm (List.range recs.length))
    (hnd : recs.Nodup) :
    (∀ r ∈ recs, ∃ i, i < N_FOLDS ∧ fm r = some i) ∧
    (∀ i1 i2, i1 ≠ i2 → ∀ r,
       r ∈ fold_records fm recs i1 → r ∈ fold_records fm recs i2 → False) ∧
    (∀ r, r ∈ recs ↔ ∃ i, i < N_FOLDS ∧ r ∈ fold_records fm recs i) ∧
    (∀ r ∈ recs,
       ((List.range N_FOLDS).filter (fun i => decide (r ∈ fold_records fm recs i))).length
         = 1) ∧
    (∀ r ∈ recs,
       ((List.range N_FOLDS).filter
           (fun i => decide (r ∈ combined_records fm recs i))).length
         = N_FOLDS - 1) := by
  have hlen : (shuffle SEED recs.length).length = recs.length := by
    rw [hperm.length_eq, List.length_range]
  have hkey : ∀ r ∈ recs, ∃ i, i < N_FOLDS ∧ fm r = some i := by
    intro r hrmem
    obtain ⟨j, hj, hrj⟩ := List.getElem_of_mem hrmem
    have hr? : recs[j]? = some r := by
      rw [List.getElem?_eq_getElem hj, hrj]
    have hflat : (kfoldTestGroups shuffle SEED recs.length N_FOLDS).flatten =
        shuffle SEED recs.length := by
      unfold kfoldTestGroups
      rw [flatten_splitBySizes]
      show (shuffle SEED recs.length).take ((foldSizes recs.length 4).sum) = _
      rw [foldSizes_sum]
      exact List.take_of_length_le (le_of_eq hlen)
    have hcount : (kfoldTestGroups shuffle SEED recs.length N_FOLDS).flatten.count j
        = 1 := by
      rw [hflat, hperm.count_eq, List.count_eq_of_nodup (List.nodup_range _),
        if_pos (List.mem_range.mpr hj)]
    have hglen : (kfoldTestGroups shuffle SEED recs.length N_FOLDS).length = N_FOLDS := by
      unfold kfoldTestGroups
      rw [splitBySizes_length]
      unfold foldSizes
      rw [List.length_map, List.length_range]
    obtain ⟨gi, hgi, hval⟩ :=
      fold_map_unique recs (kfoldTestGroups shuffle SEED recs.length N_FOLDS) r hnd j
        hr? hcount
    rw [hglen] at hgi
    exact ⟨gi, hgi, by rw [hfm]; exact hval⟩
  refine ⟨hkey, ?_, ?_, ?_, ?_⟩
  · intro i1 i2 hne r h1 h2
    have e1 := (mem_fold_records fm recs i1 r).mp h1
    have e2 := (mem_fold_records fm recs i2 r).mp h2
    exact hne (Option.some.inj (e1.2.symm.trans e2.2))
  · intro r
    constructor
    · intro hr
      obtain ⟨i, hi, hv⟩ := hkey r hr
      exact ⟨i, hi, (mem_fold_records fm recs i r).mpr ⟨hr, hv⟩⟩
    · rintro ⟨i, -, hmem⟩
      exact ((mem_fold_records fm recs i r).mp hmem).1
  · intro r hr
    obtain ⟨gi, hgi, hv⟩ := hkey r hr
    have hp : ∀ i ∈ List.range N_FOLDS,
        decide (r ∈ fold_records fm recs i) = decide (i = gi) := by
      intro i _
      apply decide_eq_decide.mpr
      rw [mem_fold_records]
      constructor
      · rintro ⟨-, hvi⟩
        exact Option.some.inj (hvi.symm.trans hv)
      · rintro rfl
        exact ⟨hr, hv⟩
    rw [List.filter_congr hp]
    have : gi = 0 ∨ gi = 1 ∨ gi = 2 ∨ gi = 3 := by
      unfold N_FOLDS at hgi
      omega
    rcases this with rfl | rfl | rfl | rfl <;> decide
  · intro r hr
    obtain ⟨gi, hgi, hv⟩ := hkey r hr
    have hp : ∀ i ∈ List.range N_FOLDS,
        decide (r ∈ combined_records fm recs i) = decide (¬ i = gi) := by
      intro i _
      apply decide_eq_decide.mpr
      rw [mem_combined_records]
      constructor
      · rintro ⟨-, hvi⟩ rfl
        exact hvi hv
      · intro hne
        exact ⟨hr, fun hvi => hne (Option.some.inj (hvi.symm.trans hv))⟩
    rw [List.filter_congr hp]
    have : gi = 0 ∨ gi = 1 ∨ gi = 2 ∨ gi = 3 := by
      unfold N_FOLDS at hgi
      omega
    rcases this with rfl | rfl | rfl | rfl <;> decide

/-- Witness for C1 at the identity shuffle on five records. -/
theorem C1_partition_witness :
    ∃ i, i < N_FOLDS ∧
      assignFolds (fun _ n => List.range n) SEED ["a", "b", "c", "d", "e"] "c" = some i :=
  (C1_partition (fun _ n => List.range n) ["a", "b", "c", "d", "e"]
    (assignFolds (fun _ n => List.range n) SEED ["a", "b", "c", "d", "e"]) rfl
    (List.Perm.refl _) (by decide)).1 "c" (by decide)

end PrepareData
